import Mathlib

/-!
Shallow embedding of the coordinate-geometry / vector-transformation core of
pyAMPP (`pyampp/gxbox/boxutils.py` and `pyampp/gxbox/gxbox_factory.py`).

Numeric grids are modelled exactly: 2-D float arrays become `List (List ℚ)`
(the claims under scrutiny are about exact arithmetic identities, which the
rationals represent faithfully), and the trigonometric field rotation of
`hmi_b2ptr` is modelled over `ℝ` with `Real.sin`/`Real.cos`.
-/

namespace PyAMPP

/-- numpy `astype(int)` applied to a float value: truncation toward zero. -/
def truncQ (q : ℚ) : ℤ := if 0 ≤ q then ⌊q⌋ else ⌈q⌉

/-- numpy `x % 360` on floats: the representative of `x` modulo `360` lying in
`[0, 360)` (numpy's `%` takes the sign of the divisor). -/
def fmod360 (x : ℚ) : ℚ := x - 360 * ⌊x / 360⌋

/-- The shape of a 2-D array modelled as a list of rows (`arr.shape`): for the
rectangular arrays numpy produces, equality of these row-length lists is
exactly numpy shape equality. -/
def gridShape (g : List (List ℚ)) : List ℕ := g.map List.length

/-- Elementwise combination of two co-registered 2-D arrays. -/
def zipWith2D (f : ℚ → ℚ → ℚ) (a b : List (List ℚ)) : List (List ℚ) :=
  List.zipWith (List.zipWith f) a b

/-- Pixel access: `g[i][j]` when it exists. -/
def pixel (g : List (List ℚ)) (i j : ℕ) : Option ℚ :=
  (g[i]?).bind fun r => r[j]?

/-- The per-pixel flip test of `hmi_disambig`: `disambig // (2 ** method) % 2`
with Python floor-division `//` (`Int.fdiv`) and Python `%` (`Int.emod`),
applied to the `astype(int)`-truncated code value. -/
def flipBit (method : ℕ) (c : ℚ) : ℤ :=
  Int.emod (Int.fdiv (truncQ c) (2 ^ method)) 2

/-- The method-validation step of `hmi_disambig`:
`if method < 0 or method > 2: method = 2`. -/
def validMethod (method : ℤ) : ℤ :=
  if method < 0 ∨ method > 2 then 2 else method

/-- `hmi_disambig(azimuth_map, disambig_map, method)` from
`pyampp/gxbox/boxutils.py`.

Returns `(result, azimuth_buffer)` where `result` is the data array of the
returned map (`none` when the shape check raises `ValueError`) and
`azimuth_buffer` is the data array of the *input* azimuth map after the call:
the source executes `azimuth[index] += 180` on the input map's own data array
(no copy is taken) before rebinding `azimuth = azimuth % 360` to a fresh
array, so flipped pixels of the input buffer keep the un-reduced `+180`
value.  The disambig array is never written (`astype` allocates a new array). -/
def hmi_disambig (azimuth disambig : List (List ℚ)) (method : ℤ) :
    Option (List (List ℚ)) × List (List ℚ) :=
  if gridShape azimuth ≠ gridShape disambig then (none, azimuth)
  else
    (some ((zipWith2D
        (fun a c => if flipBit (validMethod method).toNat c ≠ 0 then a + 180 else a)
        azimuth disambig).map (List.map fmod360)),
     zipWith2D
        (fun a c => if flipBit (validMethod method).toNat c ≠ 0 then a + 180 else a)
        azimuth disambig)

/-- Modelled from the spec: the floor-truncation variant of `hmi_disambig`
that §4.1 of the specification describes ("fractional codes are
floor-truncated, not rounded"); it differs from the source only in reducing a
fractional code with `⌊·⌋` instead of `astype(int)`'s truncation toward
zero. -/
def hmi_disambig_floorSpec (azimuth disambig : List (List ℚ)) (method : ℤ) :
    Option (List (List ℚ)) × List (List ℚ) :=
  if gridShape azimuth ≠ gridShape disambig then (none, azimuth)
  else
    (some ((zipWith2D
        (fun a c =>
          if Int.emod (Int.fdiv ⌊c⌋ (2 ^ (validMethod method).toNat)) 2 ≠ 0
          then a + 180 else a)
        azimuth disambig).map (List.map fmod360)),
     zipWith2D
        (fun a c =>
          if Int.emod (Int.fdiv ⌊c⌋ (2 ^ (validMethod method).toNat)) 2 ≠ 0
          then a + 180 else a)
        azimuth disambig)

theorem fmod360_nonneg (x : ℚ) : 0 ≤ fmod360 x := by
  unfold fmod360
  have h : (⌊x / 360⌋ : ℚ) ≤ x / 360 := Int.floor_le (x / 360)
  have h360 : (0:ℚ) < 360 := by norm_num
  nlinarith [(mul_le_mul_of_nonneg_left h (le_of_lt h360) : 360 * (⌊x / 360⌋ : ℚ) ≤ 360 * (x / 360))]

theorem fmod360_lt (x : ℚ) : fmod360 x < 360 := by
  unfold fmod360
  have h : x / 360 < (⌊x / 360⌋ : ℚ) + 1 := Int.lt_floor_add_one (x / 360)
  nlinarith [(mul_lt_mul_of_pos_left h (by norm_num : (0:ℚ) < 360))]

theorem getElem?_zipWith_some {f : ℚ → ℚ → ℚ} {l₁ l₂ : List ℚ} {j : ℕ} {x y : ℚ}
    (h₁ : l₁[j]? = some x) (h₂ : l₂[j]? = some y) :
    (List.zipWith f l₁ l₂)[j]? = some (f x y) := by
  rw [List.getElem?_zipWith, h₁, h₂]

theorem pixel_zipWith2D {f : ℚ → ℚ → ℚ} {a b : List (List ℚ)} {i j : ℕ} {x y : ℚ}
    (ha : pixel a i j = some x) (hb : pixel b i j = some y) :
    pixel (zipWith2D f a b) i j = some (f x y) := by
  unfold pixel at ha hb ⊢
  rcases h₁ : a[i]? with _ | ra
  · rw [h₁] at ha; simp at ha
  rcases h₂ : b[i]? with _ | rb
  · rw [h₂] at hb; simp at hb
  rw [h₁] at ha; rw [h₂] at hb
  simp only [Option.some_bind] at ha hb
  unfold zipWith2D
  rw [List.getElem?_zipWith, h₁, h₂]
  simpa using getElem?_zipWith_some ha hb

theorem pixel_map_fmod (g : List (List ℚ)) (i j : ℕ) :
    pixel (g.map (List.map fmod360)) i j = (pixel g i j).map fmod360 := by
  unfold pixel
  rw [List.getElem?_map]
  rcases g[i]? with _ | r
  · rfl
  · simp [List.getElem?_map]

theorem validMethod_of_valid {k : ℤ} (hk : k = 0 ∨ k = 1 ∨ k = 2) :
    validMethod k = k := by
  unfold validMethod
  rcases hk with h | h | h <;> subst h <;> norm_num

/-- Claim C2: for every azimuth grid and code grid of equal shape and every
method index `k ∈ {0,1,2}`, each output pixel of `hmi_disambig` equals
`(azimuth + 180·bit) mod 360` where `bit` is the lowest bit of the
integer-truncated code shifted right by `k`; every output value lies in
`[0, 360)`; and azimuth `[[0,90],[180,270]]` with code `[[0,1],[2,3]]` and
method 0 yields `[[0,270],[180,90]]`. -/
theorem hmi_disambig_output_formula (az dis : List (List ℚ)) (k : ℤ)
    (out buf : List (List ℚ)) (hk : k = 0 ∨ k = 1 ∨ k = 2)
    (h : hmi_disambig az dis k = (some out, buf)) :
    (∀ i j a c, pixel az i j = some a → pixel dis i j = some c →
        pixel out i j = some (fmod360 (a + 180 * ((flipBit k.toNat c : ℤ) : ℚ)))) ∧
    (∀ i j v, pixel out i j = some v → 0 ≤ v ∧ v < 360) ∧
    (hmi_disambig [[0, 90], [180, 270]] [[0, 1], [2, 3]] 0).1 =
      some [[0, 270], [180, 90]] := by
  unfold hmi_disambig at h
  by_cases hsh : gridShape az ≠ gridShape dis
  · rw [if_pos hsh] at h
    exact absurd (congrArg Prod.fst h) (by simp)
  · rw [if_neg hsh, validMethod_of_valid hk] at h
    have hout : out = (zipWith2D
        (fun a c => if flipBit k.toNat c ≠ 0 then a + 180 else a) az dis).map
        (List.map fmod360) :=
      (Option.some_inj.mp (congrArg Prod.fst h)).symm
    refine ⟨?_, ?_, ?_⟩
    · intro i j a c hpa hpc
      rw [hout, pixel_map_fmod,
        pixel_zipWith2D hpa hpc]
      rcases Int.emod_two_eq (Int.fdiv (truncQ c) (2 ^ k.toNat)) with hb | hb
      · have hb' : flipBit k.toNat c = 0 := hb
        simp [hb']
      · have hb' : flipBit k.toNat c = 1 := hb
        simp [hb']
    · intro i j v hv
      rw [hout, pixel_map_fmod] at hv
      rcases Option.map_eq_some'.mp hv with ⟨w, _, hfv⟩
      rw [← hfv]
      exact ⟨fmod360_nonneg w, fmod360_lt w⟩
    · norm_num [hmi_disambig, gridShape, zipWith2D, List.zipWith, flipBit, truncQ,
        fmod360, validMethod]

theorem hmi_disambig_output_formula_witness :
    pixel [[(225:ℚ)]] 0 0 = some (fmod360 (45 + 180 * ((flipBit 0 1 : ℤ) : ℚ))) :=
  (hmi_disambig_output_formula [[45]] [[1]] 0 [[225]] [[225]] (Or.inl rfl)
    (by norm_num [hmi_disambig, gridShape, zipWith2D, List.zipWith, flipBit, truncQ,
      fmod360, validMethod])).1 0 0 45 1 (by norm_num [pixel]) (by norm_num [pixel])

/-- Claim C5 (code bug evidence): `hmi_disambig` mutates the data array of the
input azimuth map in place.  On azimuth `[[0,90],[180,270]]`, code
`[[0,1],[2,3]]`, method 0, the input's value array after the call is
`[[0,270],[180,450]]` — the flipped pixels were incremented by 180 in the
caller's own buffer — which differs from the original array. -/
theorem hmi_disambig_mutates_input_buffer :
    (hmi_disambig [[0, 90], [180, 270]] [[0, 1], [2, 3]] 0).2 =
      [[0, 270], [180, 450]] ∧
    ([[(0:ℚ), 270], [180, 450]] : List (List ℚ)) ≠ [[0, 90], [180, 270]] := by
  constructor
  · norm_num [hmi_disambig, gridShape, zipWith2D, List.zipWith, flipBit, truncQ,
      validMethod]
  · norm_num

theorem zipWith_congr_right {f g : ℚ → ℚ → ℚ} : ∀ (l₁ l₂ : List ℚ),
    (∀ c ∈ l₂, ∀ a, f a c = g a c) → List.zipWith f l₁ l₂ = List.zipWith g l₁ l₂
  | [], _, _ => by simp
  | _ :: _, [], _ => by simp
  | a :: l₁, c :: l₂, h => by
    simp only [List.zipWith]
    rw [h c (by simp) a,
      zipWith_congr_right l₁ l₂ (fun c' hc' a' => h c' (by simp [hc']) a')]

theorem zipWith2D_congr {f g : ℚ → ℚ → ℚ} : ∀ (A B : List (List ℚ)),
    (∀ row ∈ B, ∀ c ∈ row, ∀ a, f a c = g a c) → zipWith2D f A B = zipWith2D g A B
  | [], _, _ => by simp [zipWith2D]
  | _ :: _, [], _ => by simp [zipWith2D]
  | r :: A, s :: B, h => by
    unfold zipWith2D
    simp only [List.zipWith]
    rw [zipWith_congr_right r s (fun c hc a => h s (by simp) c hc a)]
    have ih := zipWith2D_congr A B (fun row hr c hc a => h row (by simp [hr]) c hc a)
    unfold zipWith2D at ih
    rw [ih]

/-- Claim C6 (counterexample): the claim that codes are floor-truncated fails
at azimuth `[[0]]`, code `[[-1/2]]`, method 0: the source truncates toward
zero (`astype(int)` gives 0, no flip, output `[[0]]`), while floor-truncation
(`⌊-1/2⌋ = -1`) would flip and output `[[180]]`. -/
theorem hmi_disambig_floor_counterexample :
    hmi_disambig [[0]] [[-1/2]] 0 ≠ hmi_disambig_floorSpec [[0]] [[-1/2]] 0 := by
  have htr : truncQ (-(1/2) : ℚ) = 0 := by
    unfold truncQ
    rw [if_neg (by norm_num)]
    norm_num
  have hbit : flipBit (validMethod 0).toNat (-(1/2) : ℚ) = 0 := by
    unfold flipBit
    rw [htr]
    unfold validMethod
    decide
  have hbitF : (((-1:ℤ)).fdiv (2 ^ (validMethod 0).toNat)).emod 2 = 1 := by
    unfold validMethod
    decide
  have h1 : hmi_disambig [[0]] [[-1/2]] 0 = (some [[0]], [[0]]) := by
    norm_num [hmi_disambig, gridShape, zipWith2D, List.zipWith, hbit, fmod360]
  have h2 : hmi_disambig_floorSpec [[0]] [[-1/2]] 0 = (some [[180]], [[180]]) := by
    norm_num [hmi_disambig_floorSpec, gridShape, zipWith2D, List.zipWith, hbitF, fmod360]
  rw [h1, h2]
  norm_num

/-- Claim C6 (amended): `hmi_disambig` reduces a fractional code value to an
integer by truncation toward zero (numpy `astype(int)`), not by floor; the two
agree exactly when every code value is nonnegative, in which case the source
coincides with the floor-truncation reading of the spec. -/
theorem hmi_disambig_trunc_toward_zero (az dis : List (List ℚ)) (m : ℤ)
    (h : ∀ row ∈ dis, ∀ c ∈ row, 0 ≤ c) :
    hmi_disambig az dis m = hmi_disambig_floorSpec az dis m := by
  unfold hmi_disambig hmi_disambig_floorSpec
  split
  · rfl
  · have hz := zipWith2D_congr (f := fun a c =>
        if flipBit (validMethod m).toNat c ≠ 0 then a + 180 else a)
      (g := fun a c =>
        if Int.emod (Int.fdiv ⌊c⌋ (2 ^ (validMethod m).toNat)) 2 ≠ 0
        then a + 180 else a)
      az dis (fun row hr c hc a => by
        have hc0 := h row hr c hc
        have ht : truncQ c = ⌊c⌋ := by unfold truncQ; rw [if_pos hc0]
        simp only [flipBit, ht])
    rw [hz]

theorem hmi_disambig_trunc_toward_zero_witness :
    hmi_disambig [[10]] [[3/2]] 0 = hmi_disambig_floorSpec [[10]] [[3/2]] 0 :=
  hmi_disambig_trunc_toward_zero [[10]] [[3/2]] 0 (by norm_num)

/-- Claim C7: `hmi_disambig` fails (returns no map) iff the azimuth and code
grids differ in shape, in which case the input azimuth buffer is untouched
(the `ValueError` is raised before any write; the code array is never written
at all), and an out-of-range method index does not fail but behaves exactly as
method 2 (radial-acute). -/
theorem hmi_disambig_error_iff_shape_mismatch (az dis : List (List ℚ)) (m : ℤ) :
    ((hmi_disambig az dis m).1 = none ↔ gridShape az ≠ gridShape dis) ∧
    (gridShape az ≠ gridShape dis → (hmi_disambig az dis m).2 = az) ∧
    (m < 0 ∨ 2 < m → hmi_disambig az dis m = hmi_disambig az dis 2) := by
  refine ⟨⟨fun h => ?_, fun h => ?_⟩, fun h => ?_, fun h => ?_⟩
  · by_contra hsh
    unfold hmi_disambig at h
    rw [if_neg (fun hne => hne hsh)] at h
    simp at h
  · unfold hmi_disambig
    rw [if_pos h]
  · unfold hmi_disambig
    rw [if_pos h]
  · have hv : validMethod m = 2 := by
      unfold validMethod
      rcases h with h | h
      · rw [if_pos (Or.inl h)]
      · rw [if_pos (Or.inr h)]
    have hv2 : validMethod 2 = 2 := by unfold validMethod; norm_num
    unfold hmi_disambig
    rw [hv, hv2]

theorem hmi_disambig_error_iff_shape_mismatch_witness :
    (hmi_disambig [[1]] [[0], [0]] 5).2 = [[1]] ∧
    hmi_disambig [[1]] [[0], [0]] 5 = hmi_disambig [[1]] [[0], [0]] 2 := by
  constructor
  · exact (hmi_disambig_error_iff_shape_mismatch [[1]] [[0], [0]] 5).2.1
      (by norm_num [gridShape])
  · exact (hmi_disambig_error_iff_shape_mismatch [[1]] [[0], [0]] 5).2.2
      (by norm_num)

/-! ### Box geometry (`pyampp/gxbox/gxbox_factory.py`, class `Box`) -/

/-- The 8 corner offsets of `Box.__init__`:
`itertools.product(dims[0]/2*[-1,1], dims[1]/2*[-1,1], dims[2]/2*[-1,1])`
(last axis varies fastest, matching `itertools.product`). -/
def corners (d : ℚ × ℚ × ℚ) : List (ℚ × ℚ × ℚ) :=
  ([-(d.1/2), d.1/2].flatMap fun x =>
    ([-(d.2.1/2), d.2.1/2].flatMap fun y =>
      ([-(d.2.2/2), d.2.2/2].map fun z => (x, y, z))))

/-- `itertools.combinations(lst, 2)`: all unordered pairs in list order. -/
def combinations2 {α : Type _} : List α → List (α × α)
  | [] => []
  | x :: xs => (xs.map fun y => (x, y)) ++ combinations2 xs

/-- Componentwise difference of two corner offsets
(`u.Quantity(edge[0]) - u.Quantity(edge[1])`). -/
def sub3 (a b : ℚ × ℚ × ℚ) : ℚ × ℚ × ℚ := (a.1 - b.1, a.2.1 - b.2.1, a.2.2 - b.2.2)

/-- `np.count_nonzero` on a 3-vector. -/
def countNonzero3 (v : ℚ × ℚ × ℚ) : ℕ :=
  (if v.1 ≠ 0 then 1 else 0) + (if v.2.1 ≠ 0 then 1 else 0) + (if v.2.2 ≠ 0 then 1 else 0)

/-- The edge list of `Box.__init__`: corner pairs whose coordinate difference
has exactly one nonzero entry. -/
def edges (d : ℚ × ℚ × ℚ) : List ((ℚ × ℚ × ℚ) × (ℚ × ℚ × ℚ)) :=
  (combinations2 (corners d)).filter fun e => countNonzero3 (sub3 e.1 e.2) == 1

/-- `min(corner[2] for corner in self.corners)` in `_calculate_edge_types`. -/
def minZ (d : ℚ × ℚ × ℚ) : ℚ :=
  match (corners d).map (fun c => c.2.2) with
  | [] => 0
  | z :: zs => zs.foldl min z

/-- `_calculate_edge_types`: a single pass splitting the edges into bottom
edges (both endpoints at the minimum z) and the rest. -/
def edgeTypes (d : ℚ × ℚ × ℚ) :
    List ((ℚ × ℚ × ℚ) × (ℚ × ℚ × ℚ)) × List ((ℚ × ℚ × ℚ) × (ℚ × ℚ × ℚ)) :=
  (edges d).partition fun e => e.1.2.2 == minZ d && e.2.2.2 == minZ d

/-- The `Box` constructor data: observer frame handling is external (sunpy);
`origin` and `center` are the two anchor points, `box_dims` the pixel-unit
dimensions, `res` the resolution, `rsun` the solar radius carried by the
origin coordinate. -/
structure Box where
  origin : ℚ × ℚ × ℚ
  center : ℚ × ℚ × ℚ
  box_dims : ℚ × ℚ × ℚ
  res : ℚ
  rsun : ℚ

/-- `self._dims = box_dims / u.pix * box_res` (elementwise). -/
def Box.dims (b : Box) : ℚ × ℚ × ℚ :=
  (b.box_dims.1 * b.res, b.box_dims.2.1 * b.res, b.box_dims.2.2 * b.res)

/-- `self._dims_pix = np.int_(box_dims.value)` (truncation toward zero). -/
def Box.dims_pix (b : Box) : ℤ × ℤ × ℤ :=
  (truncQ b.box_dims.1, truncQ b.box_dims.2.1, truncQ b.box_dims.2.2)

/-- Componentwise translation of a corner offset by a point. -/
def add3 (a b : ℚ × ℚ × ℚ) : ℚ × ℚ × ℚ := (a.1 + b.1, a.2.1 + b.2.1, a.2.2 + b.2.2)

/-- `_get_edge_coords(edges, box_center)`: each offset edge anchored at the
box center. -/
def edgeCoords (center : ℚ × ℚ × ℚ) (es : List ((ℚ × ℚ × ℚ) × (ℚ × ℚ × ℚ))) :
    List ((ℚ × ℚ × ℚ) × (ℚ × ℚ × ℚ)) :=
  es.map fun e => (add3 center e.1, add3 center e.2)

/-- `self._bottom_edges` after `_calculate_edge_types`. -/
def Box.bottom_edges (b : Box) : List ((ℚ × ℚ × ℚ) × (ℚ × ℚ × ℚ)) :=
  edgeCoords b.center (edgeTypes (Box.dims b)).1

/-- `self._non_bottom_edges` after `_calculate_edge_types`. -/
def Box.non_bottom_edges (b : Box) : List ((ℚ × ℚ × ℚ) × (ℚ × ℚ × ℚ)) :=
  edgeCoords b.center (edgeTypes (Box.dims b)).2

/-! Sign-pattern view of the corner list, used to reason about the edge
filters symbolically. -/

/-- The 8 sign patterns in `itertools.product` order (`false` = `-`). -/
def signs3 : List (Bool × Bool × Bool) :=
  [(false, false, false), (false, false, true), (false, true, false), (false, true, true),
   (true, false, false), (true, false, true), (true, true, false), (true, true, true)]

/-- A corner offset from its sign pattern. -/
def scale (d : ℚ × ℚ × ℚ) (s : Bool × Bool × Bool) : ℚ × ℚ × ℚ :=
  ((if s.1 then d.1/2 else -(d.1/2)),
   (if s.2.1 then d.2.1/2 else -(d.2.1/2)),
   (if s.2.2 then d.2.2/2 else -(d.2.2/2)))

/-- Hamming distance of two sign patterns. -/
def hamming (s t : Bool × Bool × Bool) : ℕ :=
  (if s.1 ≠ t.1 then 1 else 0) + (if s.2.1 ≠ t.2.1 then 1 else 0) +
    (if s.2.2 ≠ t.2.2 then 1 else 0)

theorem corners_eq_map_signs (d : ℚ × ℚ × ℚ) : corners d = signs3.map (scale d) := rfl

theorem combinations2_map {α β : Type _} (f : α → β) : ∀ l : List α,
    combinations2 (l.map f) = (combinations2 l).map (Prod.map f f)
  | [] => rfl
  | x :: xs => by
    simp only [List.map_cons, combinations2, combinations2_map f xs, List.map_append,
      List.map_map]
    simp [Function.comp_def, Prod.map]

theorem ite_sub_sign {a : ℚ} (ha : a ≠ 0) (s t : Bool) :
    (if ((if s then a/2 else -(a/2)) - (if t then a/2 else -(a/2)) ≠ 0) then 1 else 0) =
      (if s ≠ t then 1 else 0) := by
  have hhalf : a/2 + a/2 = a := add_halves a
  cases s <;> cases t <;>
    simp [sub_neg_eq_add, hhalf, ha, sub_eq_add_neg, neg_add_rev]

theorem countNonzero3_scale {d : ℚ × ℚ × ℚ} (h1 : d.1 ≠ 0) (h2 : d.2.1 ≠ 0)
    (h3 : d.2.2 ≠ 0) (s t : Bool × Bool × Bool) :
    countNonzero3 (sub3 (scale d s) (scale d t)) = hamming s t := by
  unfold countNonzero3 sub3 scale hamming
  rw [ite_sub_sign h1, ite_sub_sign h2, ite_sub_sign h3]

theorem edges_eq_filter_signs {d : ℚ × ℚ × ℚ} (h1 : d.1 ≠ 0) (h2 : d.2.1 ≠ 0)
    (h3 : d.2.2 ≠ 0) :
    edges d = ((combinations2 signs3).filter fun st => hamming st.1 st.2 == 1).map
      (Prod.map (scale d) (scale d)) := by
  unfold edges
  rw [corners_eq_map_signs, combinations2_map, List.filter_map]
  congr 1
  apply List.filter_congr
  intro st _
  simp only [Function.comp_apply, Prod.map]
  rw [countNonzero3_scale h1 h2 h3 st.1 st.2]

theorem minZ_pos {d : ℚ × ℚ × ℚ} (h3 : 0 < d.2.2) : minZ d = -(d.2.2/2) := by
  have hle : -(d.2.2/2) ≤ d.2.2/2 := by linarith
  unfold minZ
  rw [corners_eq_map_signs]
  simp [signs3, scale, min_eq_left hle, min_self]

theorem minZ_neg {d : ℚ × ℚ × ℚ} (h3 : d.2.2 < 0) : minZ d = d.2.2/2 := by
  have hle : d.2.2/2 ≤ -(d.2.2/2) := by linarith
  unfold minZ
  rw [corners_eq_map_signs]
  simp [signs3, scale, min_eq_right hle, min_eq_left hle, min_self]

theorem zcomp_beq_negHalf {a : ℚ} (ha : a ≠ 0) (s : Bool) :
    ((if s then a/2 else -(a/2)) == -(a/2)) = !s := by
  have hne : a/2 ≠ -(a/2) := fun heq => ha (by linarith)
  cases s
  · simp
  · simp [hne]

theorem zcomp_beq_posHalf {a : ℚ} (ha : a ≠ 0) (s : Bool) :
    ((if s then a/2 else -(a/2)) == a/2) = s := by
  have hne : -(a/2) ≠ a/2 := fun heq => ha (by linarith)
  cases s <;> simp [hne]

/-- Claim C3 (counterexample): with pixel dimensions `(1,1,1)` and resolution
`0` the physical dims are all zero, every corner coincides, no corner pair
differs in exactly one axis, and the edge list is empty rather than of
length 12. -/
theorem box_edge_count_zero_dims_counterexample :
    (edges (Box.dims ⟨(0, 0, 0), (0, 0, 0), (1, 1, 1), 0, 1⟩)).length ≠ 12 := by
  have hd : Box.dims ⟨(0, 0, 0), (0, 0, 0), (1, 1, 1), 0, 1⟩ = ((0:ℚ), (0:ℚ), (0:ℚ)) := by
    norm_num [Box.dims]
  rw [hd]
  norm_num [edges, corners, combinations2, countNonzero3, sub3]

/-- Claim C3 (amended): for every Box construction the corner list has exactly
8 elements, and whenever all three physical dimensions are nonzero the edge
list has exactly 12 elements, the bottom-edge list 4, and the non-bottom-edge
list 8. -/
theorem filter_z_pred_pos {d : ℚ × ℚ × ℚ} (h3 : d.2.2 ≠ 0) (hpos : 0 < d.2.2)
    (l : List ((Bool × Bool × Bool) × (Bool × Bool × Bool))) :
    List.filter ((fun e => e.1.2.2 == minZ d && e.2.2.2 == minZ d) ∘
        Prod.map (scale d) (scale d)) l =
      List.filter (fun st => !st.1.2.2 && !st.2.2.2) l :=
  List.filter_congr fun st _ => by
    rcases st with ⟨s, t⟩
    simp only [Function.comp_apply, Prod.map, scale]
    rw [minZ_pos hpos, zcomp_beq_negHalf h3, zcomp_beq_negHalf h3]

theorem filter_z_pred_neg {d : ℚ × ℚ × ℚ} (h3 : d.2.2 ≠ 0) (hneg : d.2.2 < 0)
    (l : List ((Bool × Bool × Bool) × (Bool × Bool × Bool))) :
    List.filter ((fun e => e.1.2.2 == minZ d && e.2.2.2 == minZ d) ∘
        Prod.map (scale d) (scale d)) l =
      List.filter (fun st => st.1.2.2 && st.2.2.2) l :=
  List.filter_congr fun st _ => by
    rcases st with ⟨s, t⟩
    simp only [Function.comp_apply, Prod.map, scale]
    rw [minZ_neg hneg, zcomp_beq_posHalf h3, zcomp_beq_posHalf h3]

theorem filter_z_prednot_pos {d : ℚ × ℚ × ℚ} (h3 : d.2.2 ≠ 0) (hpos : 0 < d.2.2)
    (l : List ((Bool × Bool × Bool) × (Bool × Bool × Bool))) :
    List.filter ((not ∘ fun e => e.1.2.2 == minZ d && e.2.2.2 == minZ d) ∘
        Prod.map (scale d) (scale d)) l =
      List.filter (fun st => !(!st.1.2.2 && !st.2.2.2)) l :=
  List.filter_congr fun st _ => by
    rcases st with ⟨s, t⟩
    simp only [Function.comp_apply, Prod.map, scale]
    rw [minZ_pos hpos, zcomp_beq_negHalf h3, zcomp_beq_negHalf h3]

theorem filter_z_prednot_neg {d : ℚ × ℚ × ℚ} (h3 : d.2.2 ≠ 0) (hneg : d.2.2 < 0)
    (l : List ((Bool × Bool × Bool) × (Bool × Bool × Bool))) :
    List.filter ((not ∘ fun e => e.1.2.2 == minZ d && e.2.2.2 == minZ d) ∘
        Prod.map (scale d) (scale d)) l =
      List.filter (fun st => !(st.1.2.2 && st.2.2.2)) l :=
  List.filter_congr fun st _ => by
    rcases st with ⟨s, t⟩
    simp only [Function.comp_apply, Prod.map, scale]
    rw [minZ_neg hneg, zcomp_beq_posHalf h3, zcomp_beq_posHalf h3]

theorem box_corner_edge_counts (b : Box) :
    (corners (Box.dims b)).length = 8 ∧
    ((Box.dims b).1 ≠ 0 → (Box.dims b).2.1 ≠ 0 → (Box.dims b).2.2 ≠ 0 →
      (edges (Box.dims b)).length = 12 ∧ (Box.bottom_edges b).length = 4 ∧
        (Box.non_bottom_edges b).length = 8) := by
  refine ⟨by rw [corners_eq_map_signs]; simp [signs3], fun h1 h2 h3 => ?_⟩
  have he := edges_eq_filter_signs h1 h2 h3
  refine ⟨by rw [he, List.length_map]; decide, ?_, ?_⟩
  · unfold Box.bottom_edges edgeCoords
    rw [List.length_map]
    unfold edgeTypes
    rw [List.partition_eq_filter_filter]
    show ((edges (Box.dims b)).filter
        (fun e => e.1.2.2 == minZ (Box.dims b) && e.2.2.2 == minZ (Box.dims b))).length = 4
    rw [he, List.filter_map, List.length_map]
    rcases lt_or_gt_of_ne h3 with hneg | hpos
    · rw [filter_z_pred_neg h3 hneg]
      decide
    · rw [filter_z_pred_pos h3 hpos]
      decide
  · unfold Box.non_bottom_edges edgeCoords
    rw [List.length_map]
    unfold edgeTypes
    rw [List.partition_eq_filter_filter]
    show ((edges (Box.dims b)).filter
        (not ∘ fun e =>
          e.1.2.2 == minZ (Box.dims b) && e.2.2.2 == minZ (Box.dims b))).length = 8
    rw [he, List.filter_map, List.length_map]
    rcases lt_or_gt_of_ne h3 with hneg | hpos
    · rw [filter_z_prednot_neg h3 hneg]
      decide
    · rw [filter_z_prednot_pos h3 hpos]
      decide

theorem box_corner_edge_counts_witness :
    (edges (Box.dims ⟨(0, 0, 0), (0, 0, 0), (2, 2, 2), 1, 1⟩)).length = 12 ∧
    (Box.bottom_edges ⟨(0, 0, 0), (0, 0, 0), (2, 2, 2), 1, 1⟩).length = 4 ∧
    (Box.non_bottom_edges ⟨(0, 0, 0), (0, 0, 0), (2, 2, 2), 1, 1⟩).length = 8 :=
  (box_corner_edge_counts ⟨(0, 0, 0), (0, 0, 0), (2, 2, 2), 1, 1⟩).2
    (by norm_num [Box.dims]) (by norm_num [Box.dims]) (by norm_num [Box.dims])

/-- `np.linspace(start, stop, n)` with the endpoint included: `n` samples
`start + i·(stop-start)/(n-1)`.  For `n = 1` numpy returns `[start]`, which
the formula reproduces because division by zero is zero in `ℚ`. -/
def linspace (start stop : ℚ) (n : ℕ) : List ℚ :=
  (List.range n).map fun i : ℕ => start + (i : ℚ) * ((stop - start) / ((n : ℚ) - 1))

/-- `_get_grid_coords(self._center)`: per axis
`np.linspace(center - dims/2, center + dims/2, dims_pix)`.  A negative pixel
count would make numpy raise; `Int.toNat` is only exercised on the
nonnegative counts the claims quantify over. -/
def Box.grid_coords (b : Box) : List ℚ × List ℚ × List ℚ :=
  (linspace (b.center.1 - (Box.dims b).1/2) (b.center.1 + (Box.dims b).1/2)
      (Box.dims_pix b).1.toNat,
   linspace (b.center.2.1 - (Box.dims b).2.1/2) (b.center.2.1 + (Box.dims b).2.1/2)
      (Box.dims_pix b).2.1.toNat,
   linspace (b.center.2.2 - (Box.dims b).2.2/2) (b.center.2.2 + (Box.dims b).2.2/2)
      (Box.dims_pix b).2.2.toNat)

theorem linspace_length (start stop : ℚ) (n : ℕ) : (linspace start stop n).length = n := by
  simp [linspace]

theorem linspace_head {start stop : ℚ} {n : ℕ} (hn : 1 ≤ n) :
    (linspace start stop n).head? = some start := by
  unfold linspace
  rw [List.head?_eq_getElem?, List.getElem?_map]
  rw [List.getElem?_range (by omega : 0 < n)]
  simp

theorem linspace_last {start stop : ℚ} {n : ℕ} (hn : 2 ≤ n) :
    (linspace start stop n).getLast? = some stop := by
  obtain ⟨m, rfl⟩ : ∃ m, n = m + 1 := ⟨n - 1, by omega⟩
  unfold linspace
  rw [List.range_succ, List.map_append, List.map_singleton, List.getLast?_concat]
  have hm : ((m : ℚ)) ≠ 0 := Nat.cast_ne_zero.mpr (by omega)
  congr 1
  push_cast
  field_simp

theorem linspace_strict_mono {start stop : ℚ} {n : ℕ} (h : start < stop) :
    (linspace start stop n).Pairwise (· < ·) := by
  unfold linspace
  rw [List.pairwise_map]
  have hstep : ∀ {i j : ℕ}, i < j →
      start + (i : ℚ) * ((stop - start) / ((n : ℚ) - 1)) <
        start + (j : ℚ) * ((stop - start) / ((n : ℚ) - 1)) ∨
      ((n : ℚ) - 1) ≤ 0 := by
    intro i j hij
    rcases le_or_lt ((n : ℚ) - 1) 0 with hle | hpos
    · exact Or.inr hle
    · refine Or.inl (add_lt_add_left ?_ start)
      exact mul_lt_mul_of_pos_right (by exact_mod_cast hij)
        (div_pos (by linarith) hpos)
  rcases le_or_lt (n : ℚ) 1 with hn1 | hn1
  · have : n ≤ 1 := by exact_mod_cast hn1
    interval_cases n
    · simp
    · simp [show List.range 1 = [0] from rfl]
  · refine (List.pairwise_lt_range n).imp ?_
    intro i j hij
    rcases hstep hij with hlt | habs
    · exact hlt
    · linarith

theorem linspace_spec (c dd : ℚ) (n : ℕ) (hn : 2 ≤ n) (hd : 0 < dd) :
    (linspace (c - dd/2) (c + dd/2) n).length = n ∧
    (linspace (c - dd/2) (c + dd/2) n).Pairwise (· < ·) ∧
    (linspace (c - dd/2) (c + dd/2) n).head? = some (c - dd/2) ∧
    (linspace (c - dd/2) (c + dd/2) n).getLast? = some (c + dd/2) :=
  ⟨linspace_length _ _ _, linspace_strict_mono (by linarith),
    linspace_head (by omega), linspace_last hn⟩

/-- Claim C9 (counterexample): a Box with a single pixel along x (pixel dims
`(1,1,1)`, resolution 2, center the origin) produces the single sample
`[center - dims/2] = [-1]` on the x axis, whose last element is not
`center + dims/2 = 1`. -/
theorem grid_coords_single_pixel_counterexample :
    (Box.grid_coords ⟨(0, 0, 0), (0, 0, 0), (1, 1, 1), 2, 1⟩).1.getLast? ≠
      some 1 := by
  have h : (Box.grid_coords ⟨(0, 0, 0), (0, 0, 0), (1, 1, 1), 2, 1⟩).1 = [-1] := by
    norm_num [Box.grid_coords, Box.dims, Box.dims_pix, truncQ, linspace, List.range_succ]
  rw [h]
  norm_num

/-- Claim C9 (amended): for every Box whose per-axis pixel count is at least 2
and whose physical dimensions are positive, `grid_coords` produces per axis
exactly `dims_pix` strictly increasing values from `center - dims/2` to
`center + dims/2`. -/
theorem box_grid_coords_spec (b : Box)
    (hx : 2 ≤ (Box.dims_pix b).1.toNat) (hdx : 0 < (Box.dims b).1)
    (hy : 2 ≤ (Box.dims_pix b).2.1.toNat) (hdy : 0 < (Box.dims b).2.1)
    (hz : 2 ≤ (Box.dims_pix b).2.2.toNat) (hdz : 0 < (Box.dims b).2.2) :
    ((Box.grid_coords b).1.length = (Box.dims_pix b).1.toNat ∧
      (Box.grid_coords b).1.Pairwise (· < ·) ∧
      (Box.grid_coords b).1.head? = some (b.center.1 - (Box.dims b).1/2) ∧
      (Box.grid_coords b).1.getLast? = some (b.center.1 + (Box.dims b).1/2)) ∧
    ((Box.grid_coords b).2.1.length = (Box.dims_pix b).2.1.toNat ∧
      (Box.grid_coords b).2.1.Pairwise (· < ·) ∧
      (Box.grid_coords b).2.1.head? = some (b.center.2.1 - (Box.dims b).2.1/2) ∧
      (Box.grid_coords b).2.1.getLast? = some (b.center.2.1 + (Box.dims b).2.1/2)) ∧
    ((Box.grid_coords b).2.2.length = (Box.dims_pix b).2.2.toNat ∧
      (Box.grid_coords b).2.2.Pairwise (· < ·) ∧
      (Box.grid_coords b).2.2.head? = some (b.center.2.2 - (Box.dims b).2.2/2) ∧
      (Box.grid_coords b).2.2.getLast? = some (b.center.2.2 + (Box.dims b).2.2/2)) :=
  ⟨linspace_spec b.center.1 (Box.dims b).1 (Box.dims_pix b).1.toNat hx hdx,
   linspace_spec b.center.2.1 (Box.dims b).2.1 (Box.dims_pix b).2.1.toNat hy hdy,
   linspace_spec b.center.2.2 (Box.dims b).2.2 (Box.dims_pix b).2.2.toNat hz hdz⟩

theorem box_grid_coords_spec_witness :
    (Box.grid_coords ⟨(0, 0, 0), (0, 0, 0), (2, 2, 2), 1, 1⟩).1.length =
      (Box.dims_pix ⟨(0, 0, 0), (0, 0, 0), (2, 2, 2), 1, 1⟩).1.toNat ∧
    (Box.grid_coords ⟨(0, 0, 0), (0, 0, 0), (2, 2, 2), 1, 1⟩).1.Pairwise (· < ·) :=
  ⟨((box_grid_coords_spec ⟨(0, 0, 0), (0, 0, 0), (2, 2, 2), 1, 1⟩
      (by norm_num [Box.dims_pix, truncQ]) (by norm_num [Box.dims])
      (by norm_num [Box.dims_pix, truncQ]) (by norm_num [Box.dims])
      (by norm_num [Box.dims_pix, truncQ]) (by norm_num [Box.dims])).1).1,
   ((box_grid_coords_spec ⟨(0, 0, 0), (0, 0, 0), (2, 2, 2), 1, 1⟩
      (by norm_num [Box.dims_pix, truncQ]) (by norm_num [Box.dims])
      (by norm_num [Box.dims_pix, truncQ]) (by norm_num [Box.dims])
      (by norm_num [Box.dims_pix, truncQ]) (by norm_num [Box.dims])).1).2.1⟩

/-- The collected x-coordinates `xx` of `_get_bounds_coords`: the projection
`edge.transform_to(self._frame_obs).Tx/.Ty` is supplied by the external frame
provider, so an edge is modelled by its two already-projected `(Tx, Ty)`
endpoints. -/
def edgeXs (es : List ((ℚ × ℚ) × (ℚ × ℚ))) : List ℚ :=
  es.flatMap fun e => [e.1.1, e.2.1]

/-- The collected y-coordinates `yy` of `_get_bounds_coords`. -/
def edgeYs (es : List ((ℚ × ℚ) × (ℚ × ℚ))) : List ℚ :=
  es.flatMap fun e => [e.1.2, e.2.2]

/-- `np.min` of a list of values (numpy raises on an empty array; the claims
only quantify over nonempty edge lists). -/
def listMin : List ℚ → ℚ
  | [] => 0
  | x :: xs => xs.foldl min x

/-- `np.max` of a list of values. -/
def listMax : List ℚ → ℚ
  | [] => 0
  | x :: xs => xs.foldl max x

/-- `_pad = pad_frac * np.max([max_x - min_x, max_y - min_y, 20])`. -/
def padAmount (es : List ((ℚ × ℚ) × (ℚ × ℚ))) (padFrac : ℚ) : ℚ :=
  padFrac * max (listMax (edgeXs es) - listMin (edgeXs es))
    (max (listMax (edgeYs es) - listMin (edgeYs es)) 20)

/-- `_get_bounds_coords(edges, bltr, pad_frac)` restricted to its coordinate
content: `(bottom_left, top_right)` of the padded (or raw) min/max
rectangle. -/
def getBoundsCoords (es : List ((ℚ × ℚ) × (ℚ × ℚ))) (padFrac : ℚ) :
    (ℚ × ℚ) × (ℚ × ℚ) :=
  if 0 < padFrac then
    ((listMin (edgeXs es) - padAmount es padFrac,
      listMin (edgeYs es) - padAmount es padFrac),
     (listMax (edgeXs es) + padAmount es padFrac,
      listMax (edgeYs es) + padAmount es padFrac))
  else
    ((listMin (edgeXs es), listMin (edgeYs es)),
     (listMax (edgeXs es), listMax (edgeYs es)))

theorem padAmount_pos (es : List ((ℚ × ℚ) × (ℚ × ℚ))) {p : ℚ} (hp : 0 < p) :
    0 < padAmount es p := by
  unfold padAmount
  have h20 : (20:ℚ) ≤ max (listMax (edgeXs es) - listMin (edgeXs es))
      (max (listMax (edgeYs es) - listMin (edgeYs es)) 20) :=
    le_trans (le_max_right _ _) (le_max_right _ _)
  nlinarith

/-- Claim C8: the padded bounds extend each of the four sides of the
unpadded min/max rectangle by exactly
`pad_frac × max(width, height, 20)`, so the unpadded rectangle is contained
in the padded one for every positive padding fraction. -/
theorem bounds_pad_grows (es : List ((ℚ × ℚ) × (ℚ × ℚ))) (p : ℚ)
    (hne : es ≠ []) (hp : 0 < p) :
    ((getBoundsCoords es p).1.1 = (getBoundsCoords es 0).1.1 - padAmount es p ∧
     (getBoundsCoords es p).1.2 = (getBoundsCoords es 0).1.2 - padAmount es p ∧
     (getBoundsCoords es p).2.1 = (getBoundsCoords es 0).2.1 + padAmount es p ∧
     (getBoundsCoords es p).2.2 = (getBoundsCoords es 0).2.2 + padAmount es p) ∧
    padAmount es p =
      p * max ((getBoundsCoords es 0).2.1 - (getBoundsCoords es 0).1.1)
        (max ((getBoundsCoords es 0).2.2 - (getBoundsCoords es 0).1.2) 20) ∧
    ((getBoundsCoords es p).1.1 ≤ (getBoundsCoords es 0).1.1 ∧
     (getBoundsCoords es p).1.2 ≤ (getBoundsCoords es 0).1.2 ∧
     (getBoundsCoords es 0).2.1 ≤ (getBoundsCoords es p).2.1 ∧
     (getBoundsCoords es 0).2.2 ≤ (getBoundsCoords es p).2.2) := by
  have hpad := padAmount_pos es hp
  unfold getBoundsCoords
  rw [if_pos hp, if_neg (lt_irrefl 0)]
  refine ⟨⟨rfl, rfl, rfl, rfl⟩, rfl, ?_, ?_, ?_, ?_⟩ <;> simp <;> linarith

theorem bounds_pad_grows_witness :
    (getBoundsCoords [((0, 0), (1, 1))] (1/2)).1.1 ≤
      (getBoundsCoords [((0, 0), (1, 1))] 0).1.1 ∧
    (getBoundsCoords [((0, 0), (1, 1))] 0).2.1 ≤
      (getBoundsCoords [((0, 0), (1, 1))] (1/2)).2.1 :=
  ⟨(bounds_pad_grows [((0, 0), (1, 1))] (1/2) (by simp) (by norm_num)).2.2.1,
   (bounds_pad_grows [((0, 0), (1, 1))] (1/2) (by simp) (by norm_num)).2.2.2.2.1⟩

/-- The `box_origin` property of `Box`: `return self._center`. -/
def Box.box_origin (b : Box) : ℚ × ℚ × ℚ := b.center

/-- The content of the CEA header produced by `_get_bottom_cea_header` that
the claims refer to: the anchor point (`make_fitswcs_header`'s reference
coordinate, the heliographic projection of `self._origin`; the external frame
transform is the identity on the modelled coordinates), the pixel shape
`ceil(dims[:2][::-1] / res)`, and the angular scale
`asin(res / rsun)` in degrees. -/
structure CeaHeader where
  anchor : ℚ × ℚ × ℚ
  shape : ℤ × ℤ
  scaleDeg : ℝ

/-- `_get_bottom_cea_header`. -/
noncomputable def Box.bottom_cea_header (b : Box) : CeaHeader :=
  { anchor := b.origin
    shape := (⌈(Box.dims b).2.1 / b.res⌉, ⌈(Box.dims b).1 / b.res⌉)
    scaleDeg := Real.arcsin ((b.res : ℝ) / (b.rsun : ℝ)) * (180 / Real.pi) }

/-- Claim C10: the accessor `box_origin` returns the box's geometric center
(the `box_center` constructor argument), not the `box_origin` constructor
argument; the construction-time origin anchors only the bottom-face CEA
header — every other derived value is unchanged when the origin changes —
and on a box whose two anchor points differ, `box_origin` is not the
construction origin. -/
theorem box_origin_returns_center :
    (∀ b : Box, Box.box_origin b = b.center) ∧
    (∀ (b : Box) (o : ℚ × ℚ × ℚ),
      Box.grid_coords { b with origin := o } = Box.grid_coords b ∧
      corners (Box.dims { b with origin := o }) = corners (Box.dims b) ∧
      edges (Box.dims { b with origin := o }) = edges (Box.dims b) ∧
      Box.bottom_edges { b with origin := o } = Box.bottom_edges b ∧
      Box.non_bottom_edges { b with origin := o } = Box.non_bottom_edges b ∧
      (Box.bottom_cea_header { b with origin := o }).anchor = o) ∧
    (∀ b : Box, (Box.bottom_cea_header b).anchor = b.origin) ∧
    Box.box_origin ⟨(1, 2, 3), (4, 5, 6), (1, 1, 1), 1, 1⟩ ≠ ((1:ℚ), (2:ℚ), (3:ℚ)) := by
  refine ⟨fun b => rfl, fun b o => ⟨rfl, rfl, rfl, rfl, rfl, rfl⟩, fun b => rfl, ?_⟩
  simp [Box.box_origin, Prod.ext_iff]

/-! ### Field vector rotation (`hmi_b2ptr` in `pyampp/gxbox/boxutils.py`) -/

/-- Per-pixel inputs of `hmi_b2ptr`: the data grids (field strength,
inclination and azimuth, the angles in degrees), the per-pixel heliographic
longitude `phi` and latitude `lambda` in degrees (delivered by the external
`all_coordinates_from_map(map).transform_to(HeliographicStonyhurst)` call),
and the scalar header angles `crlt_obs` and `crota2` in degrees. -/
structure B2ptrInput where
  field : ℕ → ℕ → ℝ
  inclination : ℕ → ℕ → ℝ
  azimuth : ℕ → ℕ → ℝ
  lon : ℕ → ℕ → ℝ
  lat : ℕ → ℕ → ℝ
  crlt_obs : ℝ
  crota2 : ℝ

/-- `np.deg2rad`. -/
noncomputable def deg2rad (x : ℝ) : ℝ := x * (Real.pi / 180)

/-- `b_xi = -field * np.sin(gamma) * np.sin(psi)`. -/
noncomputable def b_xi (inp : B2ptrInput) (i j : ℕ) : ℝ :=
  -inp.field i j * Real.sin (deg2rad (inp.inclination i j)) *
    Real.sin (deg2rad (inp.azimuth i j))

/-- `b_eta = field * np.sin(gamma) * np.cos(psi)`. -/
noncomputable def b_eta (inp : B2ptrInput) (i j : ℕ) : ℝ :=
  inp.field i j * Real.sin (deg2rad (inp.inclination i j)) *
    Real.cos (deg2rad (inp.azimuth i j))

/-- `b_zeta = field * np.cos(gamma)`. -/
noncomputable def b_zeta (inp : B2ptrInput) (i j : ℕ) : ℝ :=
  inp.field i j * Real.cos (deg2rad (inp.inclination i j))

/-- `b = np.deg2rad(crlt_obs)`; `sinb = np.sin(b)`. -/
noncomputable def sinb (inp : B2ptrInput) : ℝ := Real.sin (deg2rad inp.crlt_obs)

/-- `cosb = np.cos(b)`. -/
noncomputable def cosb (inp : B2ptrInput) : ℝ := Real.cos (deg2rad inp.crlt_obs)

/-- `p = np.deg2rad(-crota2)`; `sinp = np.sin(p)`. -/
noncomputable def sinp (inp : B2ptrInput) : ℝ := Real.sin (deg2rad (-inp.crota2))

/-- `cosp = np.cos(p)`. -/
noncomputable def cosp (inp : B2ptrInput) : ℝ := Real.cos (deg2rad (-inp.crota2))

/-- `sinphi = np.sin(np.deg2rad(phi))`, per pixel. -/
noncomputable def sinphi (inp : B2ptrInput) (i j : ℕ) : ℝ :=
  Real.sin (deg2rad (inp.lon i j))

/-- `cosphi = np.cos(np.deg2rad(phi))`, per pixel. -/
noncomputable def cosphi (inp : B2ptrInput) (i j : ℕ) : ℝ :=
  Real.cos (deg2rad (inp.lon i j))

/-- `sinlam = np.sin(np.deg2rad(lambda_))`, per pixel. -/
noncomputable def sinlam (inp : B2ptrInput) (i j : ℕ) : ℝ :=
  Real.sin (deg2rad (inp.lat i j))

/-- `coslam = np.cos(np.deg2rad(lambda_))`, per pixel. -/
noncomputable def coslam (inp : B2ptrInput) (i j : ℕ) : ℝ :=
  Real.cos (deg2rad (inp.lat i j))

/-- `k11 = coslam * (sinb * sinp * cosphi + cosp * sinphi) - sinlam * cosb * sinp`. -/
noncomputable def k11 (inp : B2ptrInput) (i j : ℕ) : ℝ :=
  coslam inp i j * (sinb inp * sinp inp * cosphi inp i j + cosp inp * sinphi inp i j) -
    sinlam inp i j * cosb inp * sinp inp

/-- `k12 = - coslam * (sinb * cosp * cosphi - sinp * sinphi) + sinlam * cosb * cosp`. -/
noncomputable def k12 (inp : B2ptrInput) (i j : ℕ) : ℝ :=
  -(coslam inp i j * (sinb inp * cosp inp * cosphi inp i j - sinp inp * sinphi inp i j)) +
    sinlam inp i j * cosb inp * cosp inp

/-- `k13 = coslam * cosb * cosphi + sinlam * sinb`. -/
noncomputable def k13 (inp : B2ptrInput) (i j : ℕ) : ℝ :=
  coslam inp i j * cosb inp * cosphi inp i j + sinlam inp i j * sinb inp

/-- `k21 = sinlam * (sinb * sinp * cosphi + cosp * sinphi) + coslam * cosb * sinp`. -/
noncomputable def k21 (inp : B2ptrInput) (i j : ℕ) : ℝ :=
  sinlam inp i j * (sinb inp * sinp inp * cosphi inp i j + cosp inp * sinphi inp i j) +
    coslam inp i j * cosb inp * sinp inp

/-- `k22 = - sinlam * (sinb * cosp * cosphi - sinp * sinphi) - coslam * cosb * cosp`. -/
noncomputable def k22 (inp : B2ptrInput) (i j : ℕ) : ℝ :=
  -(sinlam inp i j * (sinb inp * cosp inp * cosphi inp i j - sinp inp * sinphi inp i j)) -
    coslam inp i j * cosb inp * cosp inp

/-- `k23 = sinlam * cosb * cosphi - coslam * sinb`. -/
noncomputable def k23 (inp : B2ptrInput) (i j : ℕ) : ℝ :=
  sinlam inp i j * cosb inp * cosphi inp i j - coslam inp i j * sinb inp

/-- `k31 = - sinb * sinp * sinphi + cosp * cosphi`. -/
noncomputable def k31 (inp : B2ptrInput) (i j : ℕ) : ℝ :=
  -(sinb inp * sinp inp * sinphi inp i j) + cosp inp * cosphi inp i j

/-- `k32 = sinb * cosp * sinphi + sinp * cosphi`. -/
noncomputable def k32 (inp : B2ptrInput) (i j : ℕ) : ℝ :=
  sinb inp * cosp inp * sinphi inp i j + sinp inp * cosphi inp i j

/-- `k33 = - cosb * sinphi`. -/
noncomputable def k33 (inp : B2ptrInput) (i j : ℕ) : ℝ :=
  -(cosb inp * sinphi inp i j)

/-- `hmi_b2ptr`, per pixel: the returned triple is
`(map_bp, map_bt, map_br) = (bptr[0], bptr[1], bptr[2])` with
`bptr[0] = k31*b_xi + k32*b_eta + k33*b_zeta`,
`bptr[1] = k21*b_xi + k22*b_eta + k23*b_zeta`,
`bptr[2] = k11*b_xi + k12*b_eta + k13*b_zeta`. -/
noncomputable def hmi_b2ptr (inp : B2ptrInput) (i j : ℕ) : ℝ × ℝ × ℝ :=
  (k31 inp i j * b_xi inp i j + k32 inp i j * b_eta inp i j + k33 inp i j * b_zeta inp i j,
   k21 inp i j * b_xi inp i j + k22 inp i j * b_eta inp i j + k23 inp i j * b_zeta inp i j,
   k11 inp i j * b_xi inp i j + k12 inp i j * b_eta inp i j + k13 inp i j * b_zeta inp i j)

/-- A concrete input: field 1, inclination 90°, azimuth 90°, observer and
pixel angles all zero (`b = p = φ = λ = 0`). -/
noncomputable def inp0 : B2ptrInput :=
  ⟨fun _ _ => 1, fun _ _ => 90, fun _ _ => 90, fun _ _ => 0, fun _ _ => 0, 0, 0⟩

/-- Claim C1 (counterexample): at `inp0` the code's returned `b_r`
(`map_br = bptr[2]`) is `0`, while the combination
`k31·b_xi + k32·b_eta + k33·b_zeta` that the claim asserts for `b_r`
equals `-1`: the claim's `b_r` and `b_phi` rows are swapped relative to the
code. -/
theorem hmi_b2ptr_row_counterexample :
    (hmi_b2ptr inp0 0 0).2.2 ≠
      k31 inp0 0 0 * b_xi inp0 0 0 + k32 inp0 0 0 * b_eta inp0 0 0 +
        k33 inp0 0 0 * b_zeta inp0 0 0 := by
  have h90 : deg2rad 90 = Real.pi / 2 := by unfold deg2rad; ring
  have h0 : deg2rad 0 = 0 := by unfold deg2rad; ring
  simp only [hmi_b2ptr, k11, k12, k13, k31, k32, k33, b_xi, b_eta, b_zeta,
    sinb, cosb, sinp, cosp, sinphi, cosphi, sinlam, coslam, inp0, neg_zero]
  rw [h90, h0]
  simp [Real.sin_pi_div_two, Real.cos_pi_div_two, Real.sin_zero, Real.cos_zero]

/-- Claim C1 (amended): the code computes
`b_phi = k31·b_xi + k32·b_eta + k33·b_zeta` (first returned map),
`b_theta = k21·b_xi + k22·b_eta + k23·b_zeta` and
`b_r = k11·b_xi + k12·b_eta + k13·b_zeta` (last returned map) — the claim's
`b_r` and `b_phi` coefficient rows exchanged. -/
theorem hmi_b2ptr_rows (inp : B2ptrInput) (i j : ℕ) :
    (hmi_b2ptr inp i j).1 =
      k31 inp i j * b_xi inp i j + k32 inp i j * b_eta inp i j +
        k33 inp i j * b_zeta inp i j ∧
    (hmi_b2ptr inp i j).2.1 =
      k21 inp i j * b_xi inp i j + k22 inp i j * b_eta inp i j +
        k23 inp i j * b_zeta inp i j ∧
    (hmi_b2ptr inp i j).2.2 =
      k11 inp i j * b_xi inp i j + k12 inp i j * b_eta inp i j +
        k13 inp i j * b_zeta inp i j :=
  ⟨rfl, rfl, rfl⟩

/-- Claim C4: with `b = p = 0` (zero `crlt_obs` and `crota2`) and `φ = λ = 0`
at every pixel, the rotation degenerates to a fixed permutation/sign: the
returned triple `(map_bp, map_bt, map_br)` equals
`(b_xi, -b_eta, b_zeta)` — that is `(b_r, b_theta, b_phi) =
(b_zeta, -b_eta, b_xi)` — with `b_xi = -field·sin γ·sin ψ`,
`b_eta = field·sin γ·cos ψ`, `b_zeta = field·cos γ`. -/
theorem hmi_b2ptr_identity_rotation (inp : B2ptrInput)
    (hb : inp.crlt_obs = 0) (hp : inp.crota2 = 0)
    (hlon : ∀ i j, inp.lon i j = 0) (hlat : ∀ i j, inp.lat i j = 0) (i j : ℕ) :
    hmi_b2ptr inp i j = (b_xi inp i j, -(b_eta inp i j), b_zeta inp i j) := by
  have h0 : deg2rad 0 = 0 := by unfold deg2rad; ring
  unfold hmi_b2ptr k11 k12 k13 k21 k22 k23 k31 k32 k33 sinb cosb sinp cosp
    sinphi cosphi sinlam coslam
  rw [hb, hp, hlon i j, hlat i j, neg_zero, h0]
  simp only [Real.sin_zero, Real.cos_zero, Prod.mk.injEq]
  refine ⟨by ring, by ring, by ring⟩

theorem hmi_b2ptr_identity_rotation_witness :
    hmi_b2ptr inp0 0 0 = (b_xi inp0 0 0, -(b_eta inp0 0 0), b_zeta inp0 0 0) :=
  hmi_b2ptr_identity_rotation inp0 rfl rfl (fun _ _ => rfl) (fun _ _ => rfl) 0 0

end PyAMPP
